import Mathlib

/-!
Verification of the yed `find` plugin (src/find.c): match-tracking search
engine, match navigation, sed-style replace-expression parsing, and the
offset-rebasing replacement engine.

The regular-expression matching primitive (`regexec`) is an external
capability of the C code; it is modelled here as a function
`List Char → Option (Nat × Nat)` returning the leftmost match of the
compiled pattern in a string as `(rm_so, rm_eo)` offsets, exactly the
interface `regexec` presents with `nmatches = 1`.  `literalMatcher`
instantiates it for a literal (regex-metacharacter-free) pattern.
-/

/-- `regexec` interface: given the text after the current offset, return
`some (rm_so, rm_eo)` for the leftmost match, or `none` (REG_NOMATCH). -/
abbrev Matcher := List Char → Option (Nat × Nat)

/-- The `match` record of find.c: 1-based line number and 0-based half-open
column offsets.  The C field `end` is named `stop` here (`end` is a Lean
keyword). -/
structure Match where
  line : Nat
  start : Nat
  stop : Nat
deriving DecidableEq, Repr

/-- `a` comes strictly before `b` in the (line, start) lexicographic order
that the match list of a matchframe is kept in. -/
def matchLT (a b : Match) : Prop :=
  a.line < b.line ∨ (a.line = b.line ∧ a.start < b.start)

instance (a b : Match) : Decidable (matchLT a b) := by
  unfold matchLT; exact inferInstance

theorem matchLT_trans {a b c : Match} (h1 : matchLT a b) (h2 : matchLT b c) :
    matchLT a c := by
  unfold matchLT at *; omega

/-- Bool prefix test used by `firstOcc` (plain char-list comparison). -/
def isPre : List Char → List Char → Bool
  | [], _ => true
  | _ :: _, [] => false
  | a :: as, b :: bs => a == b && isPre as bs

/-- Index of the leftmost occurrence of `pat` in `s`, if any. -/
def firstOcc (pat : List Char) : List Char → Option Nat
  | [] => if isPre pat [] then some 0 else none
  | c :: t =>
      if isPre pat (c :: t) then some 0
      else (firstOcc pat t).map (fun n => n + 1)

/-- `regexec` behaviour for a literal pattern: the leftmost occurrence,
reported as half-open `(rm_so, rm_eo)` offsets. -/
def literalMatcher (pat : List Char) (s : List Char) : Option (Nat × Nat) :=
  (firstOcc pat s).map (fun i => (i, i + pat.length))

theorem literalMatcher_wf (pat s : List Char) (so eo : Nat)
    (h : literalMatcher pat s = some (so, eo)) : so ≤ eo := by
  unfold literalMatcher at h
  cases hf : firstOcc pat s with
  | none => rw [hf] at h; simp at h
  | some i =>
      rw [hf] at h
      simp only [Option.map_some'] at h
      cases h
      omega

/-!
## Search engine (`find_matchframe_search_in_buffer`)

The inner while-loop of the C code over one line: starting from
`offset = 0`, run `regexec` on `line + offset`; on success push a match
rebased by `offset` (`find_matchframe_push_match`), advance `offset` by
`rm_eo + 1` (the return value of the push), and continue only when
`is_global`; the loop runs while `offset < strlen(line)`.
-/

def searchLineAux (matcher : Matcher) (row : Nat) (line : List Char)
    (is_global : Bool) (offset : Nat) : List Match :=
  if h : offset < line.length then
    match matcher (line.drop offset) with
    | none => []
    | some (so, eo) =>
        { line := row, start := so + offset, stop := eo + offset } ::
          (if is_global then
            searchLineAux matcher row line is_global (offset + (eo + 1))
          else [])
  else []
termination_by line.length - offset
decreasing_by omega

/-- All matches recorded within one buffer line. -/
def searchLine (matcher : Matcher) (row : Nat) (line : List Char)
    (is_global : Bool) : List Match :=
  searchLineAux matcher row line is_global 0

/-- The outer while-loop: fetch line `row`, search it, advance to
`row + 1`; it stops exactly when `yed_get_line_text` returns NULL, i.e. at
the end of the `List`-modelled buffer. -/
def searchFrom (matcher : Matcher) (is_global : Bool) :
    Nat → List (List Char) → List Match
  | _, [] => []
  | row, l :: ls =>
      searchLine matcher row l is_global ++
        searchFrom matcher is_global (row + 1) ls

/-- `find_matchframe_search_in_buffer`: clears the frame and records all
matches found scanning lines from row 1. -/
def find_matchframe_search_in_buffer (matcher : Matcher)
    (buffer : List (List Char)) (is_global : Bool) : List Match :=
  searchFrom matcher is_global 1 buffer

/-! ### Per-line facts about the scanning loop -/

theorem searchLineAux_mem (matcher : Matcher) (row : Nat) (line : List Char)
    (g : Bool) : ∀ offset, ∀ m ∈ searchLineAux matcher row line g offset,
    m.line = row ∧ offset ≤ m.start := by
  intro offset
  induction offset using searchLineAux.induct matcher row line g with
  | case1 offset h hnone =>
      intro m hm
      rw [searchLineAux] at hm
      simp [h, hnone] at hm
  | case2 offset h so eo hsome ih =>
      intro m hm
      rw [searchLineAux] at hm
      rw [dif_pos h, hsome] at hm
      rcases List.mem_cons.mp hm with rfl | hm'
      · refine ⟨rfl, ?_⟩
        show offset ≤ so + offset
        omega
      · cases g with
        | false => simp at hm'
        | true =>
            obtain ⟨h1, h2⟩ := ih m (by simpa using hm')
            exact ⟨h1, by omega⟩
  | case3 offset h =>
      intro m hm
      rw [searchLineAux] at hm
      simp [h] at hm

theorem searchLineAux_chain (matcher : Matcher) (row : Nat) (line : List Char)
    (g : Bool) : ∀ offset,
    List.Chain' (fun a b => a.stop + 1 ≤ b.start)
      (searchLineAux matcher row line g offset) := by
  intro offset
  induction offset using searchLineAux.induct matcher row line g with
  | case1 offset h hnone =>
      rw [searchLineAux]; simp [h, hnone]
  | case2 offset h so eo hsome ih =>
      rw [searchLineAux]
      rw [dif_pos h, hsome]
      cases g with
      | false => simp
      | true =>
          simp only [if_pos]
          cases htail : searchLineAux matcher row line true (offset + (eo + 1)) with
          | nil => simp
          | cons b t =>
              refine List.Chain'.cons ?_ (htail ▸ ih)
              have hb : b ∈ searchLineAux matcher row line true (offset + (eo + 1)) := by
                rw [htail]; exact List.mem_cons_self b t
              obtain ⟨-, h2⟩ := searchLineAux_mem matcher row line true _ b hb
              simp only
              omega
  | case3 offset h =>
      rw [searchLineAux]; simp [h]

theorem searchLineAux_length (matcher : Matcher) (row : Nat) (line : List Char)
    (g : Bool) : ∀ offset,
    (searchLineAux matcher row line g offset).length ≤ line.length - offset := by
  intro offset
  induction offset using searchLineAux.induct matcher row line g with
  | case1 offset h hnone =>
      rw [searchLineAux]; simp [h, hnone]
  | case2 offset h so eo hsome ih =>
      rw [searchLineAux]
      rw [dif_pos h, hsome]
      cases g with
      | false => simp; omega
      | true => simp only [if_pos, List.length_cons]; omega
  | case3 offset h =>
      rw [searchLineAux]; simp [h]

theorem searchLineAux_start_le_stop (matcher : Matcher) (row : Nat)
    (line : List Char) (g : Bool)
    (hwf : ∀ s so eo, matcher s = some (so, eo) → so ≤ eo) :
    ∀ offset, ∀ m ∈ searchLineAux matcher row line g offset,
    m.start ≤ m.stop := by
  intro offset
  induction offset using searchLineAux.induct matcher row line g with
  | case1 offset h hnone =>
      intro m hm
      rw [searchLineAux] at hm
      simp [h, hnone] at hm
  | case2 offset h so eo hsome ih =>
      intro m hm
      rw [searchLineAux] at hm
      rw [dif_pos h, hsome] at hm
      rcases List.mem_cons.mp hm with rfl | hm'
      · have := hwf _ _ _ hsome
        simp only
        omega
      · cases g with
        | false => simp at hm'
        | true => exact ih m (by simpa using hm')
  | case3 offset h =>
      intro m hm
      rw [searchLineAux] at hm
      simp [h] at hm

/-- With `is_global = false`, the line loop pushes at most one match before
breaking out. -/
theorem searchLine_false_length (matcher : Matcher) (row : Nat)
    (line : List Char) :
    (searchLine matcher row line false).length ≤ 1 := by
  unfold searchLine
  rw [searchLineAux]
  split
  · cases hm : matcher (line.drop 0) with
    | none => simp
    | some p => obtain ⟨so, eo⟩ := p; simp
  · simp

theorem mem_of_getLast? {l : List Match} {x : Match} (h : x ∈ l.getLast?) :
    x ∈ l := by
  obtain ⟨hne, rfl⟩ := List.mem_getLast?_eq_getLast h
  exact List.getLast_mem hne

/-- Same-line matches with strictly separated spans are strictly ordered by
`(line, start)` once each span is well-formed (`start ≤ stop`). -/
theorem chain_matchLT_of_same_line (row : Nat) :
    ∀ (l : List Match), (∀ m ∈ l, m.line = row) → (∀ m ∈ l, m.start ≤ m.stop) →
    List.Chain' (fun a b => a.stop + 1 ≤ b.start) l → List.Chain' matchLT l := by
  intro l
  induction l with
  | nil => intro _ _ _; simp
  | cons a t ih =>
      intro hline hss hc
      cases t with
      | nil => simp
      | cons b t' =>
          rw [List.chain'_cons] at hc ⊢
          refine ⟨?_, ih (fun m hm => hline m (List.mem_cons_of_mem a hm))
            (fun m hm => hss m (List.mem_cons_of_mem a hm)) hc.2⟩
          have ha := hline a (List.mem_cons_self a _)
          have hb := hline b (List.mem_cons_of_mem a (List.mem_cons_self b t'))
          have has := hss a (List.mem_cons_self a _)
          right
          exact ⟨ha.trans hb.symm, by omega⟩

theorem searchLine_mem (matcher : Matcher) (row : Nat) (line : List Char)
    (g : Bool) (m : Match) (hm : m ∈ searchLine matcher row line g) :
    m.line = row :=
  (searchLineAux_mem matcher row line g 0 m hm).1

theorem searchLine_chain_matchLT (matcher : Matcher) (row : Nat)
    (line : List Char) (g : Bool)
    (hwf : ∀ s so eo, matcher s = some (so, eo) → so ≤ eo) :
    List.Chain' matchLT (searchLine matcher row line g) :=
  chain_matchLT_of_same_line row _
    (fun m hm => searchLine_mem matcher row line g m hm)
    (fun m hm => searchLineAux_start_le_stop matcher row line g hwf 0 m hm)
    (searchLineAux_chain matcher row line g 0)

/-! ### Buffer-level facts about `searchFrom` -/

theorem searchFrom_row_le (matcher : Matcher) (g : Bool) :
    ∀ (ls : List (List Char)) (row : Nat) (m : Match),
    m ∈ searchFrom matcher g row ls → row ≤ m.line ∧ m.line < row + ls.length := by
  intro ls
  induction ls with
  | nil => intro row m hm; simp [searchFrom] at hm
  | cons l ls ih =>
      intro row m hm
      rw [searchFrom, List.mem_append] at hm
      rcases hm with hm | hm
      · have := searchLine_mem matcher row l g m hm
        simp [this]
      · have := ih (row + 1) m hm
        constructor <;> [omega; (simp only [List.length_cons]; omega)]

theorem searchFrom_chain_matchLT (matcher : Matcher) (g : Bool)
    (hwf : ∀ s so eo, matcher s = some (so, eo) → so ≤ eo) :
    ∀ (ls : List (List Char)) (row : Nat),
    List.Chain' matchLT (searchFrom matcher g row ls) := by
  intro ls
  induction ls with
  | nil => intro row; simp [searchFrom]
  | cons l ls ih =>
      intro row
      rw [searchFrom, List.chain'_append]
      refine ⟨searchLine_chain_matchLT matcher row l g hwf, ih (row + 1), ?_⟩
      intro x hx y hy
      have hxl := searchLine_mem matcher row l g x (mem_of_getLast? hx)
      have hyl := (searchFrom_row_le matcher g ls (row + 1) y
        (List.mem_of_mem_head? hy)).1
      left
      omega

theorem searchFrom_length (matcher : Matcher) (g : Bool) :
    ∀ (ls : List (List Char)) (row : Nat),
    (searchFrom matcher g row ls).length ≤ (ls.map List.length).sum := by
  intro ls
  induction ls with
  | nil => intro row; simp [searchFrom]
  | cons l ls ih =>
      intro row
      rw [searchFrom, List.length_append]
      have h1 : (searchLine matcher row l g).length ≤ l.length := by
        simpa [searchLine] using searchLineAux_length matcher row l g 0
      have h2 := ih (row + 1)
      simp only [List.map_cons, List.sum_cons]
      omega

theorem pairwise_of_length_le_one {R : Match → Match → Prop} :
    ∀ (l : List Match), l.length ≤ 1 → List.Pairwise R l := by
  intro l h
  cases l with
  | nil => exact List.Pairwise.nil
  | cons a t => cases t with
    | nil => simp
    | cons b t' => simp at h

theorem searchFrom_false_pairwise_ne (matcher : Matcher) :
    ∀ (ls : List (List Char)) (row : Nat),
    List.Pairwise (fun a b : Match => a.line ≠ b.line)
      (searchFrom matcher false row ls) := by
  intro ls
  induction ls with
  | nil => intro row; simp [searchFrom]
  | cons l ls ih =>
      intro row
      rw [searchFrom, List.pairwise_append]
      refine ⟨pairwise_of_length_le_one _ (searchLine_false_length matcher row l),
        ih (row + 1), ?_⟩
      intro x hx y hy
      have hxl := searchLine_mem matcher row l false x hx
      have hyl := (searchFrom_row_le matcher false ls (row + 1) y hy).1
      omega

theorem searchFrom_chain_stop_le (matcher : Matcher) (g : Bool) :
    ∀ (ls : List (List Char)) (row : Nat),
    List.Chain' (fun a b : Match => a.line = b.line → a.stop ≤ b.start)
      (searchFrom matcher g row ls) := by
  intro ls
  induction ls with
  | nil => intro row; simp [searchFrom]
  | cons l ls ih =>
      intro row
      rw [searchFrom, List.chain'_append]
      refine ⟨(searchLineAux_chain matcher row l g 0).imp ?_, ih (row + 1), ?_⟩
      · intro a b hab _
        omega
      · intro x hx y hy heq
        have hxl := searchLine_mem matcher row l g x (mem_of_getLast? hx)
        have hyl := (searchFrom_row_le matcher g ls (row + 1) y
          (List.mem_of_mem_head? hy)).1
        omega

/-- Spec-side reading of C3's "records all non-overlapping matches", stated
for a literal pattern: every occurrence of the pattern in a buffer line that
overlaps no recorded match is itself recorded by a global search. -/
def recordsAllNonOverlappingMatches (pat : List Char)
    (buf : List (List Char)) : Prop :=
  ∀ r line p, buf.get? r = some line →
    isPre pat (line.drop p) = true →
    (∀ m ∈ find_matchframe_search_in_buffer (literalMatcher pat) buf true,
        m.line = r + 1 → p + pat.length ≤ m.start ∨ m.stop ≤ p) →
    ∃ m ∈ find_matchframe_search_in_buffer (literalMatcher pat) buf true,
      m.line = r + 1 ∧ m.start = p ∧ m.stop = p + pat.length

/-- Claim C3, counterexample: on the single-line buffer `"aa"` with literal
pattern `"a"` and `global = true`, the engine records only the match at
column 0 — the scan resumes at `matchEnd + 1`, skipping the non-overlapping
occurrence at column 1 — so it does not record all non-overlapping
matches. -/
theorem c3_counterexample :
    ¬ recordsAllNonOverlappingMatches ['a'] [['a', 'a']] := by
  intro h
  have hsearch : find_matchframe_search_in_buffer (literalMatcher ['a'])
      [['a', 'a']] true = [⟨1, 0, 1⟩] := by
    simp [find_matchframe_search_in_buffer, searchFrom, searchLine,
      searchLineAux, literalMatcher, firstOcc, isPre]
  have hx := h 0 ['a', 'a'] 1 rfl (by decide)
    (by rw [hsearch]; decide)
  rw [hsearch] at hx
  revert hx
  decide

/-- Claim C3 (amended): with `global = false` the Search Engine records at
most one match per line (no two recorded matches share a line); with
`global = true`, any two consecutive recorded matches on the same line
satisfy `start ≥ previous stop` (in fact `≥ previous stop + 1`: the scan
resumes at `matchEnd + 1`, so occurrences starting exactly at the previous
match's end are skipped and not every non-overlapping match is recorded). -/
theorem c3_theorem (matcher : Matcher) (buf : List (List Char)) :
    List.Pairwise (fun a b : Match => a.line ≠ b.line)
      (find_matchframe_search_in_buffer matcher buf false)
    ∧ List.Chain' (fun a b : Match => a.line = b.line → a.stop ≤ b.start)
        (find_matchframe_search_in_buffer matcher buf true) :=
  ⟨searchFrom_false_pairwise_ne matcher buf 1,
    searchFrom_chain_stop_le matcher true buf 1⟩

/-- Claim C6: after every search, the recorded match list is sorted strictly
ascending by `(line, start)`: consecutive entries have either a strictly
smaller line, or the same line and a strictly smaller start.  The hypothesis
is the `regexec` contract `rm_so ≤ rm_eo`. -/
theorem c6_theorem (matcher : Matcher) (buf : List (List Char)) (g : Bool)
    (hwf : ∀ s so eo, matcher s = some (so, eo) → so ≤ eo) :
    List.Chain' matchLT (find_matchframe_search_in_buffer matcher buf g) :=
  searchFrom_chain_matchLT matcher g hwf buf 1

theorem c6_witness :
    List.Chain' matchLT
      (find_matchframe_search_in_buffer (literalMatcher ['a'])
        [['a', 'b', 'a']] true) :=
  c6_theorem (literalMatcher ['a']) [['a', 'b', 'a']] true
    (fun s so eo h => literalMatcher_wf ['a'] s so eo h)

/-- Claim C9: the Search Engine terminates on every finite buffer and any
matcher: each recorded match advances the intra-line offset by at least one
(`matchEnd + 1 ≥ 1`), so a line of length `n` records at most `n` matches
and the whole run at most the total buffer length; the line loop visits
exactly the buffer's lines (every recorded line number is in range); and a
matcher that always reports a zero-width match at position 0 still
terminates, recording one match per column. -/
theorem c9_theorem (matcher : Matcher) (buf : List (List Char)) (g : Bool) :
    (find_matchframe_search_in_buffer matcher buf g).length
        ≤ (buf.map List.length).sum
    ∧ (∀ m ∈ find_matchframe_search_in_buffer matcher buf g,
        1 ≤ m.line ∧ m.line ≤ buf.length)
    ∧ searchLine (fun _ => some (0, 0)) 1 ['a', 'b', 'c'] true
        = [⟨1, 0, 0⟩, ⟨1, 1, 1⟩, ⟨1, 2, 2⟩] := by
  refine ⟨searchFrom_length matcher g buf 1, ?_, ?_⟩
  · intro m hm
    have := searchFrom_row_le matcher g buf 1 m hm
    omega
  · simp [searchLine, searchLineAux]

/-!
## Match navigator (`find_matchframe_cursor_nearest_match`)

The C routine scans the frame's match list forward (`array_traverse`) or
backward (`array_rtraverse`) for the first entry satisfying the direction's
condition; if none is found it wraps to the first (resp. last) match and
prints a notice.  On success it writes `row = m->line`,
`col = m->start + 1`.
-/

inductive WrapNotice
  | hitBottomContinueTop
  | hitTopContinueBottom
deriving DecidableEq, Repr

/-- Forward scan condition: `m->line == r && m->start > c || m->line > r`. -/
def fwdCond (r c : Nat) (m : Match) : Bool :=
  (m.line == r && decide (c < m.start)) || decide (r < m.line)

/-- Backward scan condition: `m->line == r && m->start < c - 1 || m->line < r`.
The C comparison promotes the `int` expression `c - 1` to `size_t`; for the
1-based cursor columns yed supplies (`c ≥ 1`) that equals `m.start + 1 < c`. -/
def bwdCond (r c : Nat) (m : Match) : Bool :=
  (m.line == r && decide (m.start + 1 < c)) || decide (m.line < r)

def find_matchframe_cursor_nearest_match (ms : List Match) (r c : Nat)
    (direction : Int) : Option (Nat × Nat × Option WrapNotice) :=
  match ms with
  | [] => none
  | m0 :: rest =>
      if 0 < direction then
        match (m0 :: rest).find? (fwdCond r c) with
        | some m => some (m.line, m.start + 1, none)
        | none =>
            some (m0.line, m0.start + 1, some WrapNotice.hitBottomContinueTop)
      else
        match ((m0 :: rest).reverse).find? (bwdCond r c) with
        | some m => some (m.line, m.start + 1, none)
        | none =>
            let ml := (m0 :: rest).getLast (List.cons_ne_nil m0 rest)
            some (ml.line, ml.start + 1, some WrapNotice.hitTopContinueBottom)

/-- In a `(line, start)`-sorted list every element is the last one or comes
strictly before it. -/
theorem chain'_rel_getLast :
    ∀ (l : List Match) (h : l ≠ []), List.Chain' matchLT l →
    ∀ m ∈ l, m = l.getLast h ∨ matchLT m (l.getLast h) := by
  intro l
  induction l with
  | nil => intro h; cases h rfl
  | cons a t ih =>
      intro h hc m hm
      cases t with
      | nil =>
          rcases List.mem_cons.mp hm with rfl | hm'
          · left; rfl
          · simp at hm'
      | cons b t' =>
          rw [List.chain'_cons] at hc
          have hne' : b :: t' ≠ [] := List.cons_ne_nil b t'
          rw [List.getLast_cons hne']
          rcases List.mem_cons.mp hm with rfl | hm'
          · rcases ih hne' hc.2 b (List.mem_cons_self b t') with hb | hb
            · right; exact hb ▸ hc.1
            · right; exact matchLT_trans hc.1 hb
          · exact ih hne' hc.2 m hm'

/-- In a `(line, start)`-sorted list every element is the head or comes
strictly after it. -/
theorem chain'_rel_head :
    ∀ (l : List Match) (h : l ≠ []), List.Chain' matchLT l →
    ∀ m ∈ l, m = l.head h ∨ matchLT (l.head h) m := by
  intro l
  induction l with
  | nil => intro h; cases h rfl
  | cons a t ih =>
      intro h hc m hm
      simp only [List.head_cons]
      rcases List.mem_cons.mp hm with rfl | hm'
      · left; rfl
      · cases t with
        | nil => simp at hm'
        | cons b t' =>
            rw [List.chain'_cons] at hc
            right
            rcases ih (List.cons_ne_nil b t') hc.2 m hm' with rfl | hb
            · simpa [List.head_cons] using hc.1
            · exact matchLT_trans hc.1 (by simpa [List.head_cons] using hb)

/-- Claim C8: for a sorted, non-empty match frame with the cursor after the
last match, the forward navigator wraps to the first match and emits the
"Search hit bottom, continuing at top" notice; with the cursor before the
first match, the backward navigator wraps to the last match and emits
"Search hit top, continuing at bottom".  Sortedness is the frame invariant
established by the search engine. -/
theorem c8_theorem (ms : List Match) (hne : ms ≠ [])
    (hsorted : List.Chain' matchLT ms) (rf cf rb cb : Nat)
    (hafter : (ms.getLast hne).line < rf ∨
      ((ms.getLast hne).line = rf ∧ (ms.getLast hne).start ≤ cf))
    (hbefore : rb < (ms.head hne).line ∨
      (rb = (ms.head hne).line ∧ cb ≤ (ms.head hne).start + 1)) :
    find_matchframe_cursor_nearest_match ms rf cf 1
      = some ((ms.head hne).line, (ms.head hne).start + 1,
          some WrapNotice.hitBottomContinueTop)
    ∧ find_matchframe_cursor_nearest_match ms rb cb (-1)
      = some ((ms.getLast hne).line, (ms.getLast hne).start + 1,
          some WrapNotice.hitTopContinueBottom) := by
  have hfwd : ∀ m ∈ ms, ¬ (fwdCond rf cf m = true) := by
    intro m hm
    rcases chain'_rel_getLast ms hne hsorted m hm with rfl | hlt
    · simp only [fwdCond, Bool.or_eq_true, Bool.and_eq_true, beq_iff_eq,
        decide_eq_true_eq]
      omega
    · unfold matchLT at hlt
      simp only [fwdCond, Bool.or_eq_true, Bool.and_eq_true, beq_iff_eq,
        decide_eq_true_eq]
      omega
  have hbwd : ∀ m ∈ ms, ¬ (bwdCond rb cb m = true) := by
    intro m hm
    rcases chain'_rel_head ms hne hsorted m hm with rfl | hlt
    · simp only [bwdCond, Bool.or_eq_true, Bool.and_eq_true, beq_iff_eq,
        decide_eq_true_eq]
      omega
    · unfold matchLT at hlt
      simp only [bwdCond, Bool.or_eq_true, Bool.and_eq_true, beq_iff_eq,
        decide_eq_true_eq]
      omega
  obtain ⟨m0, rest, rfl⟩ : ∃ m0 rest, ms = m0 :: rest := by
    cases ms with
    | nil => cases hne rfl
    | cons a t => exact ⟨a, t, rfl⟩
  constructor
  · have hnone : (m0 :: rest).find? (fwdCond rf cf) = none :=
      List.find?_eq_none.mpr hfwd
    simp only [find_matchframe_cursor_nearest_match]
    rw [if_pos (by norm_num : (0 : Int) < 1), hnone]
    simp [List.head_cons]
  · have hnone : ((m0 :: rest).reverse).find? (bwdCond rb cb) = none :=
      List.find?_eq_none.mpr (fun x hx => hbwd x (List.mem_reverse.mp hx))
    simp only [find_matchframe_cursor_nearest_match]
    rw [if_neg (by norm_num : ¬ (0 : Int) < -1), hnone]

theorem c8_witness :
    find_matchframe_cursor_nearest_match
        [⟨1, 0, 2⟩, ⟨2, 3, 5⟩] 5 1 1
      = some (1, 1, some WrapNotice.hitBottomContinueTop)
    ∧ find_matchframe_cursor_nearest_match
        [⟨1, 0, 2⟩, ⟨2, 3, 5⟩] 1 1 (-1)
      = some (2, 4, some WrapNotice.hitTopContinueBottom) :=
  c8_theorem [⟨1, 0, 2⟩, ⟨2, 3, 5⟩] (by decide)
    (List.Chain'.cons (by decide) (List.chain'_singleton _))
    5 1 1 1 (by decide) (by decide)

/-!
## Replacement engine (`find_matchframe_replace`)

Buffer mutation goes through the host editor's two primitives,
`yed_delete_from_line` and `yed_insert_into_line`, both addressed by
(1-based line, 1-based column); they touch only the addressed line.
-/

/-- The `replace_properties` struct of find.c.  The C `int` flags are
modelled as `Bool`; `replacement` holds the replacement text without its
terminating NUL (the C array stores text plus `'\0'` and the engine uses
`array_len - 1` as its length). -/
structure replace_properties where
  is_all_lines : Bool
  is_single_line : Bool
  is_confirm : Bool
  is_global : Bool
  is_ignore_case : Bool
  start_line : Int
  end_line : Int
  replacement : List Char
deriving DecidableEq, Repr

/-- `find_replace_properties_reset`. -/
def find_replace_properties_reset : replace_properties :=
  { is_all_lines := false, is_single_line := false, is_confirm := false,
    is_global := false, is_ignore_case := false,
    start_line := -1, end_line := -1, replacement := [] }

/-- Delete the character at 1-based column `col` of one line; out-of-range
columns leave the line unchanged. -/
def yed_delete_from_line (l : List Char) (col : Nat) : List Char :=
  l.take (col - 1) ++ l.drop col

/-- Insert a character so that it becomes the 1-based `col`-th character of
the line. -/
def yed_insert_into_line (l : List Char) (col : Nat) (c : Char) : List Char :=
  l.take (col - 1) ++ c :: l.drop (col - 1)

/-- Apply `f` to the 1-based `row`-th line of the buffer; other lines (and a
row outside the buffer) are untouched. -/
def bufModify (f : List Char → List Char) : Nat → List (List Char) → List (List Char)
  | _, [] => []
  | 0, buf => buf
  | 1, l :: ls => f l :: ls
  | r + 2, l :: ls => l :: bufModify f (r + 1) ls

/-- Loop state of the match-traversal in `find_matchframe_replace`:
the buffer being edited plus the C locals `last_line` (initially `-1`) and
`offset` (the per-line running rebase, an `int`). -/
structure ReplaceState where
  buffer : List (List Char)
  last_line : Int
  offset : Int

/-- One iteration of the `array_traverse(mf->matches, m)` loop of
`find_matchframe_replace`: reset `offset` on a line change, delete
`end - start` characters at column `start + 1 + offset`, insert the
replacement characters in reverse order at the same column when the
replacement is non-empty, and update `offset` by
`replacement_len - match_len` (or `-= match_len` when deleting only). -/
def replaceOneMatch (replacement : List Char) (st : ReplaceState)
    (m : Match) : ReplaceState :=
  let match_len : Int := (m.stop : Int) - (m.start : Int)
  let offset : Int := if st.last_line ≠ (m.line : Int) then 0 else st.offset
  let col : Nat := ((m.start : Int) + 1 + offset).toNat
  let afterDelete :=
    (fun b => bufModify (fun l => yed_delete_from_line l col) m.line b)^[m.stop - m.start]
      st.buffer
  if replacement ≠ [] then
    { buffer := replacement.reverse.foldl
        (fun b c => bufModify (fun l => yed_insert_into_line l col c) m.line b)
        afterDelete,
      last_line := (m.line : Int),
      offset := offset + (replacement.length : Int) - match_len }
  else
    { buffer := afterDelete,
      last_line := (m.line : Int),
      offset := offset - match_len }

inductive ReplaceOutcome
  | parseErrorReported
  | compileErrorReported
  | patternNotFound
  | replaced
deriving DecidableEq, Repr

structure ReplaceResult where
  buffer : List (List Char)
  outcome : ReplaceOutcome
deriving DecidableEq, Repr

/-- `find_matchframe_replace`: recompile the stored pattern with the spec's
ignore-case flag (a compile failure aborts with an error message and no
mutation), re-run the search with the spec's global flag, report "Pattern
not found" and leave the buffer untouched when there are zero matches, and
otherwise rewrite every match in recorded order, tracking the per-line
offset.  `compile` models `regcomp` of the pattern text, yielding the
`regexec` closure. -/
def find_matchframe_replace (pattern : List Char)
    (compile : List Char → Bool → Option Matcher)
    (buffer : List (List Char)) (rp : replace_properties) : ReplaceResult :=
  match compile pattern rp.is_ignore_case with
  | none => { buffer := buffer, outcome := ReplaceOutcome.compileErrorReported }
  | some matcher =>
      let ms := find_matchframe_search_in_buffer matcher buffer rp.is_global
      if ms.length = 0 then
        { buffer := buffer, outcome := ReplaceOutcome.patternNotFound }
      else
        let st := ms.foldl (replaceOneMatch rp.replacement)
          { buffer := buffer, last_line := -1, offset := 0 }
        { buffer := st.buffer, outcome := ReplaceOutcome.replaced }

/-- Claim C4: replacing pattern `"a"` by `"bb"` with the global flag on the
single-line buffer `"aXaXaX"` yields `"bbXbbXbbX"`: the per-line running
offset rebases every later match on the line correctly. -/
theorem c4_theorem :
    find_matchframe_replace ['a'] (fun p _ => some (literalMatcher p))
      [['a', 'X', 'a', 'X', 'a', 'X']]
      { find_replace_properties_reset with
          is_global := true, replacement := ['b', 'b'] }
      = { buffer := [['b', 'b', 'X', 'b', 'b', 'X', 'b', 'b', 'X']],
          outcome := ReplaceOutcome.replaced } := by
  have hms : find_matchframe_search_in_buffer (literalMatcher ['a'])
      [['a', 'X', 'a', 'X', 'a', 'X']] true
      = [⟨1, 0, 1⟩, ⟨1, 2, 3⟩, ⟨1, 4, 5⟩] := by
    simp [find_matchframe_search_in_buffer, searchFrom, searchLine,
      searchLineAux, literalMatcher, firstOcc, isPre]
  simp only [find_matchframe_replace, hms]
  rfl

/-- Claim C5: whenever the (compiled) pattern has zero matches in the
buffer, the replacement engine reports "Pattern not found" and returns with
the buffer unchanged — no delete or insert is issued. -/
theorem c5_theorem (pattern : List Char)
    (compile : List Char → Bool → Option Matcher)
    (buffer : List (List Char)) (rp : replace_properties) (matcher : Matcher)
    (hc : compile pattern rp.is_ignore_case = some matcher)
    (hnone : find_matchframe_search_in_buffer matcher buffer rp.is_global = []) :
    find_matchframe_replace pattern compile buffer rp
      = { buffer := buffer, outcome := ReplaceOutcome.patternNotFound } := by
  simp [find_matchframe_replace, hc, hnone]

theorem c5_witness :
    find_matchframe_replace ['z'] (fun p _ => some (literalMatcher p)) [['X']]
      find_replace_properties_reset
      = { buffer := [['X']], outcome := ReplaceOutcome.patternNotFound } :=
  c5_theorem ['z'] (fun p _ => some (literalMatcher p)) [['X']]
    find_replace_properties_reset (literalMatcher ['z']) rfl
    (by simp [find_matchframe_search_in_buffer, searchFrom, searchLine,
      searchLineAux, literalMatcher, firstOcc, isPre])

/-- Claim C10: the replacement engine never reads the range fields
(`start_line`, `end_line`, `is_single_line`, `is_all_lines`) of the replace
specification — two specifications agreeing on `is_ignore_case`,
`is_global` and `replacement` produce identical results — and consequently
a single-line specification (line 1 only) still mutates matches on every
line of a two-line buffer. -/
theorem c10_theorem (pattern : List Char)
    (compile : List Char → Bool → Option Matcher)
    (buffer : List (List Char)) (rp rp' : replace_properties)
    (hic : rp.is_ignore_case = rp'.is_ignore_case)
    (hg : rp.is_global = rp'.is_global)
    (hr : rp.replacement = rp'.replacement) :
    find_matchframe_replace pattern compile buffer rp
      = find_matchframe_replace pattern compile buffer rp'
    ∧ (find_matchframe_replace ['a'] (fun p _ => some (literalMatcher p))
        [['a'], ['a']]
        { find_replace_properties_reset with
            is_single_line := true, start_line := 1,
            replacement := ['b'] }).buffer
      = [['b'], ['b']] := by
  constructor
  · unfold find_matchframe_replace
    rw [hic, hg, hr]
  · have hms : find_matchframe_search_in_buffer (literalMatcher ['a'])
        [['a'], ['a']] false = [⟨1, 0, 1⟩, ⟨2, 0, 1⟩] := by
      simp [find_matchframe_search_in_buffer, searchFrom, searchLine,
        searchLineAux, literalMatcher, firstOcc, isPre]
    simp only [find_matchframe_replace, find_replace_properties_reset, hms]
    rfl

theorem c10_witness :
    (find_matchframe_replace ['a'] (fun p _ => some (literalMatcher p))
        [['a'], ['a']]
        { find_replace_properties_reset with
            is_single_line := true, start_line := 1, replacement := ['b'] }
      = find_matchframe_replace ['a'] (fun p _ => some (literalMatcher p))
        [['a'], ['a']]
        { find_replace_properties_reset with
            is_all_lines := true, replacement := ['b'] })
    ∧ (find_matchframe_replace ['a'] (fun p _ => some (literalMatcher p))
        [['a'], ['a']]
        { find_replace_properties_reset with
            is_single_line := true, start_line := 1,
            replacement := ['b'] }).buffer
      = [['b'], ['b']] :=
  c10_theorem ['a'] (fun p _ => some (literalMatcher p)) [['a'], ['a']]
    { find_replace_properties_reset with
        is_single_line := true, start_line := 1, replacement := ['b'] }
    { find_replace_properties_reset with
        is_all_lines := true, replacement := ['b'] }
    rfl rfl rfl

/-!
## Replace-expression parser (`find_parse_sed_expression`)

The C routine runs `regexec` with the fixed POSIX extended expression

    ([0-9]+|%)?,?([0-9]+)?s\/(.*)\/(.*)\/(\w+)?

and then post-processes the six capture groups.  Stage one below
(`parseSedRegex`) models that `regexec` call for this fixed pattern: the
leftmost position admitting a match wins; the leading alternation and the
two `[0-9]+` groups take maximal runs (digit runs cannot overlap the
literal `s`, so the greedy split is the POSIX one); the two `(.*)` groups
split the remainder at its last two `/` characters, which maximises the
overall match extent as POSIX requires; the optional `(\w+)?` takes the
maximal word-character run after the last `/`.  Stage two
(`find_parse_sed_expression`) is the direct translation of the C group
processing.
-/

structure SedGroups where
  g1 : List Char
  g2 : List Char
  g3 : List Char
  g4 : List Char
  g5 : List Char
deriving DecidableEq, Repr

def isWordChar (c : Char) : Bool := c.isAlphanum || c == '_'

/-- Match `([0-9]+|%)?,?([0-9]+)?s\/` at the head of `s`, returning the two
range groups and the text after the `s/`. -/
def sedFront (s : List Char) : Option (List Char × List Char × List Char) :=
  let ds := s.takeWhile Char.isDigit
  let g1s : List Char × List Char :=
    if ds ≠ [] then (ds, s.drop ds.length)
    else
      match s with
      | '%' :: t => (['%'], t)
      | _ => ([], s)
  let s2 : List Char :=
    match g1s.2 with
    | ',' :: t => t
    | _ => g1s.2
  let g2 := s2.takeWhile Char.isDigit
  match s2.drop g2.length with
  | 's' :: '/' :: r => some (g1s.1, g2, r)
  | _ => none

/-- Match `(.*)\/(.*)\/(\w+)?` against all of `r`: split at the last two
slashes, then take the maximal word run. -/
def sedTail (r : List Char) : Option (List Char × List Char × List Char) :=
  let parts := r.splitOn '/'
  if parts.length ≥ 3 then
    some (List.intercalate ['/'] (parts.take (parts.length - 2)),
      parts.getD (parts.length - 2) [],
      (parts.getLastD []).takeWhile isWordChar)
  else none

def sedMatchAt (s : List Char) : Option SedGroups :=
  match sedFront s with
  | none => none
  | some (g1, g2, r) =>
      match sedTail r with
      | none => none
      | some (g3, g4, g5) => some ⟨g1, g2, g3, g4, g5⟩

/-- `regexec` scans match positions left to right. -/
def parseSedRegex : List Char → Option SedGroups
  | [] => none
  | c :: t =>
      match sedMatchAt (c :: t) with
      | some g => some g
      | none => parseSedRegex t

inductive ParseError
  | invalidReplaceExpression
  | bothAllLinesAndEndingLine
  | startingLineButNoEnding
deriving DecidableEq, Repr

/-- `sscanf(buff, "%d", ...)` on the digit runs the range groups produce. -/
def digitsVal (s : List Char) : Int :=
  s.foldl (fun a c => a * 10 + ((c.toNat : Int) - 48)) 0

/-- `find_fill_match_buff` copies a capture group into a 256-byte buffer,
truncating longer groups. -/
def find_fill_match_buff (g : List Char) : List Char := g.take 256

/-- `find_parse_sed_expression`: stage-one regex match plus the C group
processing.  `cursor_line` is the frame's cursor line (used when no range
is given); `storedPattern` is the global `_pattern`, overridden when the
find group is non-empty.  Returns the filled `replace_properties` and the
resulting pattern text, or the error the C code prints before returning 1. -/
def find_parse_sed_expression (cursor_line : Int) (storedPattern : List Char)
    (exp : List Char) : Except ParseError (replace_properties × List Char) :=
  match parseSedRegex exp with
  | none => Except.error ParseError.invalidReplaceExpression
  | some g =>
      let rp0 := find_replace_properties_reset
      let b1 := find_fill_match_buff g.g1
      let rangeResult : Except ParseError replace_properties :=
        if b1 = [] then
          let b2 := find_fill_match_buff g.g2
          let rp1 :=
            if b2 ≠ [] then { rp0 with start_line := digitsVal b2 }
            else { rp0 with start_line := cursor_line }
          Except.ok { rp1 with is_single_line := true }
        else if b1 = ['%'] then
          let b2 := find_fill_match_buff g.g2
          if b2 ≠ [] then Except.error ParseError.bothAllLinesAndEndingLine
          else Except.ok { rp0 with is_all_lines := true }
        else
          let rp1 := { rp0 with start_line := digitsVal b1 }
          let b2 := find_fill_match_buff g.g2
          if b2 ≠ [] then Except.error ParseError.startingLineButNoEnding
          else rp1 |> Except.ok
      match rangeResult with
      | Except.error e => Except.error e
      | Except.ok rp =>
          let b3 := find_fill_match_buff g.g3
          let newPattern := if b3 ≠ [] then b3 else storedPattern
          let rp := { rp with replacement := find_fill_match_buff g.g4 }
          let b5 := find_fill_match_buff g.g5
          let rp :=
            if b5 ≠ [] then
              { rp with is_global := b5.contains 'g',
                        is_confirm := b5.contains 'c',
                        is_ignore_case := b5.contains 'i' }
            else rp
          Except.ok (rp, newPattern)

/-- `find_regex_sed_replace`: parse the expression; on failure return with
the buffer untouched, otherwise run `find_matchframe_replace`. -/
def find_regex_sed_replace (compile : List Char → Bool → Option Matcher)
    (buffer : List (List Char)) (cursor_line : Int)
    (storedPattern : List Char) (exp : List Char) : ReplaceResult :=
  match find_parse_sed_expression cursor_line storedPattern exp with
  | Except.error _ =>
      { buffer := buffer, outcome := ReplaceOutcome.parseErrorReported }
  | Except.ok (rp, pat) => find_matchframe_replace pat compile buffer rp

/-- Claim C1 (observed code behaviour): the range check of
`find_parse_sed_expression` is inverted with respect to its own comment
("Verify the 2nd match isn't empty") — for `"5,10s/foo/bar/gi"`, whose
groups are `g1 = "5"`, `g2 = "10"`, the code hits
`if (buff[0] != '\0')` with the non-empty end-line group and aborts with
"Expression provided starting line number but no ending!", so the parse
fails and `find_regex_sed_replace` returns without touching the buffer. -/
theorem c1_theorem :
    find_parse_sed_expression 1 []
      ['5', ',', '1', '0', 's', '/', 'f', 'o', 'o', '/', 'b', 'a', 'r', '/',
        'g', 'i']
      = Except.error ParseError.startingLineButNoEnding
    ∧ find_regex_sed_replace (fun p _ => some (literalMatcher p))
        [['f', 'o', 'o']] 1 []
        ['5', ',', '1', '0', 's', '/', 'f', 'o', 'o', '/', 'b', 'a', 'r', '/',
          'g', 'i']
      = { buffer := [['f', 'o', 'o']],
          outcome := ReplaceOutcome.parseErrorReported } :=
  ⟨rfl, rfl⟩

/-- Claim C2 (observed code behaviour): a range consisting of a starting
line with no ending line is *accepted* by the parser — for
`"5s/foo/bar/"` the groups are `g1 = "5"`, `g2 = ""`, the inverted check
`if (buff[0] != '\0')` passes, and the parse succeeds with
`start_line = 5` and `end_line = -1`; `find_regex_sed_replace` then goes on
to mutate the buffer. -/
theorem c2_theorem :
    find_parse_sed_expression 1 []
      ['5', 's', '/', 'f', 'o', 'o', '/', 'b', 'a', 'r', '/']
      = Except.ok
          ({ find_replace_properties_reset with
              start_line := 5, replacement := ['b', 'a', 'r'] },
            ['f', 'o', 'o'])
    ∧ (find_regex_sed_replace (fun p _ => some (literalMatcher p))
        [['f', 'o', 'o']] 1 []
        ['5', 's', '/', 'f', 'o', 'o', '/', 'b', 'a', 'r', '/']).buffer
      = [['b', 'a', 'r']] := by
  have hparse : find_parse_sed_expression 1 []
      ['5', 's', '/', 'f', 'o', 'o', '/', 'b', 'a', 'r', '/']
      = Except.ok
          ({ find_replace_properties_reset with
              start_line := 5, replacement := ['b', 'a', 'r'] },
            ['f', 'o', 'o']) := rfl
  refine ⟨hparse, ?_⟩
  have hms : find_matchframe_search_in_buffer (literalMatcher ['f', 'o', 'o'])
      [['f', 'o', 'o']] false = [⟨1, 0, 3⟩] := by
    simp [find_matchframe_search_in_buffer, searchFrom, searchLine,
      searchLineAux, literalMatcher, firstOcc, isPre]
  simp only [find_regex_sed_replace, hparse]
  simp only [find_matchframe_replace, find_replace_properties_reset, hms]
  rfl


/-!
## Interactive search (`find_regex_search`)

The keystroke dispatch of `find_regex_search` while
`ys->interactive_command` is set.  The editor-visible state is the active
frame's buffer and cursor, the saved cursor position
(`_search_save_row/_search_save_col`), the global `_pattern`, the command
prompt's accumulated text (`ys->cmd_buff`), the frame's matchframe
(`mf_matches`), and whether interactive mode is active.  `compile` models
`find_pattern_compile(0)` of the current pattern text (`none` = a compile
failure, swallowed silently while interactive).
-/

structure EditorState where
  buffer : List (List Char)
  cursor_line : Nat
  cursor_col : Nat
  save_row : Nat
  save_col : Nat
  pattern : List Char
  cmd_buff : List Char
  mf_matches : List Match
  interactive : Bool
deriving Repr

inductive Key
  | esc
  | ctrlC
  | enter
  | char (c : Char)

/-- Entering interactive mode with no arguments:
`find_interactive_mode_start(1)` saves the cursor position and clears the
command buffer, then `find_pattern_clear()` empties the pattern. -/
def find_regex_search_start (s : EditorState) : EditorState :=
  { s with interactive := true,
           save_row := s.cursor_line,
           save_col := s.cursor_col,
           cmd_buff := [],
           pattern := [] }

/-- The shared tail of `find_regex_search` after the key switch: compile the
pattern (an error returns immediately, silently while interactive), re-run
the search with `is_global = 1`, and reposition the cursor — to the saved
position when there are no matches, otherwise to the match nearest after
the saved position. -/
def find_search_research (compile : List Char → Option Matcher)
    (s : EditorState) : EditorState :=
  match compile s.pattern with
  | none => s
  | some matcher =>
      let ms := find_matchframe_search_in_buffer matcher s.buffer true
      if ms.length = 0 then
        { s with mf_matches := ms,
                 cursor_line := s.save_row, cursor_col := s.save_col }
      else
        match find_matchframe_cursor_nearest_match ms s.save_row s.save_col 1 with
        | some (r, c, _) =>
            { s with mf_matches := ms, cursor_line := r, cursor_col := c }
        | none => { s with mf_matches := ms }

/-- ESC / CTRL_C: `find_interactive_mode_cancel()`, `find_pattern_clear()`,
`find_matchframe_clear(mf)`, then `goto reset_cursor` restores the saved
cursor position. -/
def find_search_cancel (s : EditorState) : EditorState :=
  { s with interactive := false, cmd_buff := [], pattern := [],
           mf_matches := [],
           cursor_line := s.save_row, cursor_col := s.save_col }

/-- One interactive keystroke of `find_regex_search`. -/
def find_regex_search_key (compile : List Char → Option Matcher)
    (s : EditorState) : Key → EditorState
  | Key.esc => find_search_cancel s
  | Key.ctrlC => find_search_cancel s
  | Key.enter =>
      find_search_research compile { s with interactive := false, cmd_buff := [] }
  | Key.char c =>
      find_search_research compile
        { s with cmd_buff := s.cmd_buff ++ [c], pattern := s.cmd_buff ++ [c] }

theorem find_search_research_save (compile : List Char → Option Matcher)
    (s : EditorState) :
    (find_search_research compile s).save_row = s.save_row
    ∧ (find_search_research compile s).save_col = s.save_col := by
  unfold find_search_research
  cases compile s.pattern with
  | none => exact ⟨rfl, rfl⟩
  | some matcher =>
      simp only
      split
      · exact ⟨rfl, rfl⟩
      · split
        · exact ⟨rfl, rfl⟩
        · exact ⟨rfl, rfl⟩

theorem find_regex_search_key_char_save (compile : List Char → Option Matcher)
    (s : EditorState) (c : Char) :
    (find_regex_search_key compile s (Key.char c)).save_row = s.save_row
    ∧ (find_regex_search_key compile s (Key.char c)).save_col = s.save_col := by
  have h := find_search_research_save compile
    { s with cmd_buff := s.cmd_buff ++ [c], pattern := s.cmd_buff ++ [c] }
  simpa only [find_regex_search_key] using h

theorem foldl_char_keys_save (compile : List Char → Option Matcher)
    (keys : List Char) : ∀ s : EditorState,
    ((keys.foldl (fun s c => find_regex_search_key compile s (Key.char c)) s).save_row
        = s.save_row)
    ∧ ((keys.foldl (fun s c => find_regex_search_key compile s (Key.char c)) s).save_col
        = s.save_col) := by
  induction keys with
  | nil => intro s; exact ⟨rfl, rfl⟩
  | cons c cs ih =>
      intro s
      rw [List.foldl_cons]
      obtain ⟨h1, h2⟩ := ih (find_regex_search_key compile s (Key.char c))
      obtain ⟨h3, h4⟩ := find_regex_search_key_char_save compile s c
      exact ⟨h1.trans h3, h2.trans h4⟩

/-- Claim C7: entering interactive search at cursor (3, 5), typing any
sequence of ordinary keystrokes (each of which may move the cursor to a
match), and then cancelling with Escape or the interrupt key leaves the
cursor at exactly (3, 5), the pattern store empty, and the frame's match
list empty. -/
theorem c7_theorem (compile : List Char → Option Matcher) (s0 : EditorState)
    (keys : List Char) (k : Key) (hk : k = Key.esc ∨ k = Key.ctrlC)
    (hrow : s0.cursor_line = 3) (hcol : s0.cursor_col = 5) :
    (find_regex_search_key compile
        (keys.foldl (fun s c => find_regex_search_key compile s (Key.char c))
          (find_regex_search_start s0)) k).cursor_line = 3
    ∧ (find_regex_search_key compile
        (keys.foldl (fun s c => find_regex_search_key compile s (Key.char c))
          (find_regex_search_start s0)) k).cursor_col = 5
    ∧ (find_regex_search_key compile
        (keys.foldl (fun s c => find_regex_search_key compile s (Key.char c))
          (find_regex_search_start s0)) k).pattern = []
    ∧ (find_regex_search_key compile
        (keys.foldl (fun s c => find_regex_search_key compile s (Key.char c))
          (find_regex_search_start s0)) k).mf_matches = [] := by
  obtain ⟨hr, hc⟩ := foldl_char_keys_save compile keys (find_regex_search_start s0)
  have hsr : (find_regex_search_start s0).save_row = 3 := by
    simpa [find_regex_search_start] using hrow
  have hsc : (find_regex_search_start s0).save_col = 5 := by
    simpa [find_regex_search_start] using hcol
  rcases hk with rfl | rfl <;>
    exact ⟨hr.trans hsr, hc.trans hsc, rfl, rfl⟩

theorem c7_witness :
    (find_regex_search_key (fun _ => none)
        (['x', 'y'].foldl
          (fun s c => find_regex_search_key (fun _ => none) s (Key.char c))
          (find_regex_search_start
            { buffer := [['a', 'b']], cursor_line := 3, cursor_col := 5,
              save_row := 0, save_col := 0, pattern := [], cmd_buff := [],
              mf_matches := [⟨1, 0, 1⟩], interactive := false }))
        Key.esc).cursor_line = 3
    ∧ (find_regex_search_key (fun _ => none)
        (['x', 'y'].foldl
          (fun s c => find_regex_search_key (fun _ => none) s (Key.char c))
          (find_regex_search_start
            { buffer := [['a', 'b']], cursor_line := 3, cursor_col := 5,
              save_row := 0, save_col := 0, pattern := [], cmd_buff := [],
              mf_matches := [⟨1, 0, 1⟩], interactive := false }))
        Key.esc).cursor_col = 5
    ∧ (find_regex_search_key (fun _ => none)
        (['x', 'y'].foldl
          (fun s c => find_regex_search_key (fun _ => none) s (Key.char c))
          (find_regex_search_start
            { buffer := [['a', 'b']], cursor_line := 3, cursor_col := 5,
              save_row := 0, save_col := 0, pattern := [], cmd_buff := [],
              mf_matches := [⟨1, 0, 1⟩], interactive := false }))
        Key.esc).pattern = []
    ∧ (find_regex_search_key (fun _ => none)
        (['x', 'y'].foldl
          (fun s c => find_regex_search_key (fun _ => none) s (Key.char c))
          (find_regex_search_start
            { buffer := [['a', 'b']], cursor_line := 3, cursor_col := 5,
              save_row := 0, save_col := 0, pattern := [], cmd_buff := [],
              mf_matches := [⟨1, 0, 1⟩], interactive := false }))
        Key.esc).mf_matches = [] :=
  c7_theorem (fun _ => none)
    { buffer := [['a', 'b']], cursor_line := 3, cursor_col := 5,
      save_row := 0, save_col := 0, pattern := [], cmd_buff := [],
      mf_matches := [⟨1, 0, 1⟩], interactive := false }
    ['x', 'y'] Key.esc (Or.inl rfl) rfl rfl
